import Mathlib

/-!
Verification of the NomadRoute Journey Animation Director
(`src/map/animate.js`, current revision with the run-generation counter,
plus `src/utils/geo.js`).

The embedding follows the JavaScript source closely.  Numbers are modelled
as rationals; because the source contains an arithmetic slip (the point
interpolation function `lerp` from `geo.js` is applied to scalar arguments
inside `animateLeg`), the embedding also models the relevant fragment of
JavaScript value semantics: `undefined`, `NaN`, arrays, numeric coercion.
-/

namespace NomadRoute

/-- Geographic point `[lng, lat]` with exact rational coordinates. -/
abbrev Point : Type := ℚ × ℚ

/-- A JavaScript number that is either an actual (rational) number or `NaN`.
`Infinity` never arises on the paths the animator executes, so it is not
modelled. -/
inductive JNum : Type
  | num (q : ℚ)
  | nan
deriving DecidableEq

namespace JNum

/-- Addition of JS numbers: `NaN` is absorbing. -/
def add : JNum → JNum → JNum
  | num a, num b => num (a + b)
  | _, _ => nan

/-- Subtraction of JS numbers: `NaN` is absorbing. -/
def sub : JNum → JNum → JNum
  | num a, num b => num (a - b)
  | _, _ => nan

/-- Multiplication of JS numbers: `NaN` is absorbing (JS `0 * NaN = NaN`). -/
def mul : JNum → JNum → JNum
  | num a, num b => num (a * b)
  | _, _ => nan

/-- Division of JS numbers.  Every division in the animator is guarded by a
positivity check on the divisor, so the division-by-zero case (JS
`Infinity`) is mapped to `nan`; it is unreachable. -/
def div : JNum → JNum → JNum
  | num a, num b => if b = 0 then nan else num (a / b)
  | _, _ => nan

/-- The test `x >= 1` on a JS number; every comparison with `NaN` is false. -/
def ge1 : JNum → Bool
  | num q => 1 ≤ q
  | nan => false

end JNum

/-- A JavaScript value as it flows through `geo.js`'s `lerp`: a number,
`undefined`, `NaN`, or an array. -/
inductive JSVal : Type
  | num (q : ℚ)
  | undef
  | nan
  | arr (xs : List JSVal)

namespace JSVal

/-- Property read `v[i]`: arrays index into their elements (out of range
gives `undefined`); numbers and `undefined` have no index properties, so
the read yields `undefined`. -/
def index (v : JSVal) (i : ℕ) : JSVal :=
  match v with
  | arr xs => xs.getD i undef
  | _ => undef

/-- Numeric coercion `ToNumber` for the value shapes the animator produces:
`undefined → NaN`, `[] → 0`, a one-element numeric array coerces to its
element, and any longer array stringifies to a comma-joined string and
hence to `NaN`. -/
def toNumber : JSVal → JNum
  | num q => JNum.num q
  | undef => JNum.nan
  | nan => JNum.nan
  | arr [] => JNum.num 0
  | arr [num q] => JNum.num q
  | arr _ => JNum.nan

/-- Repack a JS number as a JS value. -/
def ofJNum : JNum → JSVal
  | JNum.num q => num q
  | JNum.nan => nan

/-- Numeric `+` (the operands reaching it in `lerp` are element reads and
products, never strings or arrays). -/
def addNum (a b : JSVal) : JSVal := ofJNum (JNum.add a.toNumber b.toNumber)

/-- Numeric `-`. -/
def subNum (a b : JSVal) : JSVal := ofJNum (JNum.sub a.toNumber b.toNumber)

/-- Numeric `*`. -/
def mulNum (a b : JSVal) : JSVal := ofJNum (JNum.mul a.toNumber b.toNumber)

end JSVal

/-- `geo.js` `lerp(p1, p2, t)`: componentwise interpolation built from the
index reads `p1[0]`, `p1[1]`, …; faithful to the source, including its
behaviour when `p1`/`p2` are scalars (index reads give `undefined`). -/
def lerpJS (p1 p2 t : JSVal) : JSVal :=
  JSVal.arr
    [JSVal.addNum (p1.index 0) (JSVal.mulNum (JSVal.subNum (p2.index 0) (p1.index 0)) t),
     JSVal.addNum (p1.index 1) (JSVal.mulNum (JSVal.subNum (p2.index 1) (p1.index 1)) t)]

/-- The per-frame ease factor exactly as computed by `animateLeg`'s frame
(lines 230–232): `easeFactor = 1`, overwritten by
`lerp(0.1, 1, progressRatio * 10)` when `progressRatio < 0.1` and by
`lerp(1, 0.1, (progressRatio - 0.9) * 10)` when `progressRatio > 0.9`. -/
def easeFactorJS (progressRatio : ℚ) : JSVal :=
  let e := JSVal.num 1
  let e := if progressRatio < 1/10 then
      lerpJS (JSVal.num (1/10)) (JSVal.num 1) (JSVal.num (progressRatio * 10))
    else e
  let e := if progressRatio > 9/10 then
      lerpJS (JSVal.num 1) (JSVal.num (1/10)) (JSVal.num ((progressRatio - 9/10) * 10))
    else e
  e

/-- Interpolated point: `lerp(p1, p2, t)` applied to two genuine path points
and a JS-number parameter `t` (the accumulated `segmentProgress`). -/
def lerpPt (a b : Point) (t : JNum) : JNum × JNum :=
  (JNum.add (JNum.num a.1) (JNum.mul (JNum.sub (JNum.num b.1) (JNum.num a.1)) t),
   JNum.add (JNum.num a.2) (JNum.mul (JNum.sub (JNum.num b.2) (JNum.num a.2)) t))

/-- Camera lead point: `lerp(currentPos, p2, 0.3)` where `currentPos` is the
already-interpolated (possibly `NaN`-valued) marker position. -/
def lerpLead (c : JNum × JNum) (b : Point) (t : ℚ) : JNum × JNum :=
  (JNum.add c.1 (JNum.mul (JNum.sub (JNum.num b.1) c.1) (JNum.num t)),
   JNum.add c.2 (JNum.mul (JNum.sub (JNum.num b.2) c.2) (JNum.num t)))

/-- View a rational path point as a pair of JS numbers. -/
def toJP (p : Point) : JNum × JNum := (JNum.num p.1, JNum.num p.2)

/-- Transport modes of the journey data model. -/
inductive Mode : Type
  | walk | bike | car | bus | train | plane | teleport
deriving DecidableEq

/-- `MODE_ICONS` table. -/
def modeIcon : Mode → String
  | .walk => "🚶" | .bike => "🚲" | .car => "🚗" | .bus => "🚌"
  | .train => "🚆" | .plane => "✈️" | .teleport => "🌀"

/-- `DEFAULT_MODE_ZOOMS` table. -/
def defaultZoom : Mode → ℚ
  | .walk => 13 | .bike => 12 | .car => 10 | .bus => 10
  | .train => 9 | .plane => 3 | .teleport => 9

/-- `MODE_PITCH` table. -/
def modePitchTable : Mode → ℚ
  | .walk => 50 | .bike => 45 | .car => 40 | .bus => 45
  | .train => 40 | .plane => 10 | .teleport => 40

/-- `DEFAULT_MODE_SPEEDS` table. -/
def defaultSpeed : Mode → ℚ
  | .walk => 1/10 | .bike => 3/10 | .car => 4/5 | .bus => 3/5
  | .train => 1 | .plane => 8 | .teleport => 100

/-- Caller-supplied overrides (`settings.zooms`, `settings.speeds`); `none`
means the key is absent and the built-in default applies (object spread
`\x7b ...DEFAULT, ...settings \x7d`). -/
structure Settings : Type where
  zooms : Mode → Option ℚ
  speeds : Mode → Option ℚ

/-- Settings with no overrides (`settings = \x7b\x7d`). -/
def noSettings : Settings := ⟨fun _ => none, fun _ => none⟩

/-- JS `x || d` on numbers: `x` when truthy (nonzero), otherwise `d`. -/
def jsOr (x d : ℚ) : ℚ := if x = 0 then d else x

/-- Merged zoom table `modeZooms[m]`. -/
def modeZoom (st : Settings) (m : Mode) : ℚ := (st.zooms m).getD (defaultZoom m)

/-- Merged speed table `modeSpeeds[m]`. -/
def modeSpeed (st : Settings) (m : Mode) : ℚ := (st.speeds m).getD (defaultSpeed m)

/-- Per-leg resolution `zoomTarget = modeZooms[mode] || 10` (line 129). -/
def legZoom (st : Settings) (m : Mode) : ℚ := jsOr (modeZoom st m) 10

/-- Per-leg resolution `speedBase = modeSpeeds[mode] || 1.0` (line 128). -/
def legSpeed (st : Settings) (m : Mode) : ℚ := jsOr (modeSpeed st m) 1

/-- Per-leg resolution `pitchTarget = MODE_PITCH[mode] || 40` (line 130). -/
def legPitch (m : Mode) : ℚ := jsOr (modePitchTable m) 40

/-- Establishing-shot zoom (lines 96–99):
`initialZoom = modeZooms['car'] || 10`, camera set at `initialZoom - 1.5`. -/
def establishingZoom (st : Settings) : ℚ := jsOr (modeZoom st .car) 10 - 3/2

/-- One leg of the journey. -/
structure Leg : Type where
  mode : Mode
  pathCoords : List Point
  fromName : Option String
  toName : Option String
deriving DecidableEq

/-- An observable side effect on the shared view state or the caller's
callbacks, in program order.  `setMarkerPos`, `setActiveTrail`, `jumpTo`
carry JS-number payloads because interpolated positions can be `NaN`. -/
inductive Effect : Type
  | setMarkerText (icon : String)
  | setMarkerPos (p : Option (JNum × JNum))
  | setActiveTrail (ps : List (JNum × JNum))
  | setCompletedTrail (pss : List (List Point))
  | jumpTo (center : Option (JNum × JNum)) (zoom pitch : ℚ)
  | flyTo (center : Option Point) (zoom pitch : ℚ)
  | easeToOpen (zoom : ℚ)
  | easeToArr
  | showLabel (text : Option String)
  | hideLabel
  | callOnComplete
  | callOnLegStart (index : ℕ)
  | callOnError
  | consoleError
  | stopAnim
deriving DecidableEq

/-- The persistent closure state of one `animateLeg` frame loop. -/
structure LegState : Type where
  path : List Point
  speedReal : ℚ
  totalDist : ℚ
  zoomT : ℚ
  pitchT : ℚ
  distanceCovered : ℚ
  currentPathIdx : ℕ
  segmentProgress : JNum
  p1 : Point
  p2 : Point
  activeTrail : List Point
deriving DecidableEq

/-- Sum of adjacent-pair distances,
`for (i = 0; i < path.length - 1; i++) totalDist += getDistance(...)`. -/
def sumAdj (dist : Point → Point → ℚ) : List Point → ℚ
  | a :: b :: rest => dist a b + sumAdj dist (b :: rest)
  | _ => 0

/-- The synchronous prelude of `animateLeg` (lines 193–218): compute
`totalDist`, resolve immediately on a degenerate leg
(`totalDist < 0.001 || speedBase < 0`, then `REAL_SPEED <= 0`), otherwise
initialise the loop state and publish the one-point active trail.
`none` in the second component means the promise resolved before any
frame was scheduled. -/
def legInit (dist : Point → Point → ℚ) (path : List Point)
    (speedBase zoomT pitchT : ℚ) : List Effect × Option LegState :=
  let totalDist := sumAdj dist path
  if totalDist < 1/1000 ∨ speedBase < 0 then ([], none)
  else
    let speedReal := speedBase * (1/5)
    if speedReal ≤ 0 then ([], none)
    else
      let p0 := path.getD 0 (0, 0)
      ([Effect.setActiveTrail [toJP p0]],
       some { path := path, speedReal := speedReal, totalDist := totalDist,
              zoomT := zoomT, pitchT := pitchT, distanceCovered := 0,
              currentPathIdx := 0, segmentProgress := JNum.num 0,
              p1 := p0, p2 := path.getD 1 (0, 0), activeTrail := [p0] })

/-- Result of the `while (segmentProgress >= 1)` loop (lines 244–257):
either the leg resolved inside the loop (with its final marker/trail
effects), or the loop exited with the updated accumulator values. -/
inductive AdvRes : Type
  | resolve (effs : List Effect)
  | cont (seg : JNum) (idx : ℕ) (trail : List Point) (dc : ℚ)

/-- The `while (segmentProgress >= 1)` loop: subtract 1, advance the index,
push the just-passed point, resolve when the path is exhausted, otherwise
load the next segment and accumulate its length into `distanceCovered`. -/
def advance (dist : Point → Point → ℚ) (path : List Point) (seg : JNum)
    (idx : ℕ) (p2 : Point) (trail : List Point) (dc : ℚ) : AdvRes :=
  if seg.ge1 then
    let seg' := JNum.sub seg (JNum.num 1)
    let idx' := idx + 1
    let trail' := trail ++ [p2]
    if path.length - 1 ≤ idx' then
      AdvRes.resolve
        [Effect.setMarkerPos (some (toJP (path.getD (path.length - 1) (0, 0)))),
         Effect.setActiveTrail (path.map toJP)]
    else
      let p1' := path.getD idx' (0, 0)
      let p2' := path.getD (idx' + 1) (0, 0)
      let dc' := dc + dist (path.getD (idx' - 1) (0, 0)) p1'
      advance dist path seg' idx' p2' trail' dc'
  else AdvRes.cont seg idx trail dc
termination_by path.length - idx
decreasing_by
  rename_i h
  simp only [not_le] at h
  omega

/-- Outcome of one frame callback. -/
inductive FrameRes : Type
  | resolved
  | next (ls : LegState)
deriving DecidableEq

/-- One execution of `animateLeg`'s `frame` callback (lines 220–281),
faithful to the source: staleness check first; `progressRatio`;
the ease factor via the (point-typed) `lerp`; `moveDist`; the
degenerate-segment skip; the catch-up `while` loop; the safety check;
marker interpolation, trail publication and camera lead. -/
def frame (dist : Point → Point → ℚ) (rid runId : ℕ) (ls : LegState) :
    List Effect × FrameRes :=
  if rid ≠ runId then ([], FrameRes.resolved)
  else
    let progressRatio : ℚ :=
      if 0 < ls.totalDist then ls.distanceCovered / ls.totalDist else 1
    let moveDist := JNum.mul (JNum.num ls.speedReal)
      (JSVal.toNumber (easeFactorJS progressRatio))
    let degenerate := dist ls.p1 ls.p2 ≤ 1/10000
    let idx1 := if degenerate then ls.currentPathIdx + 1 else ls.currentPathIdx
    let seg1 := if degenerate then ls.segmentProgress
      else JNum.add ls.segmentProgress (JNum.div moveDist (JNum.num (dist ls.p1 ls.p2)))
    match advance dist ls.path seg1 idx1 ls.p2 ls.activeTrail ls.distanceCovered with
    | AdvRes.resolve effs => (effs, FrameRes.resolved)
    | AdvRes.cont seg2 idx2 trail2 dc2 =>
      if ls.path.length - 1 ≤ idx2 then ([], FrameRes.resolved)
      else
        let q1 := ls.path.getD idx2 (0, 0)
        let q2 := ls.path.getD (idx2 + 1) (0, 0)
        let currentPos := lerpPt q1 q2 seg2
        let leadPos := lerpLead currentPos q2 (3/10)
        ([Effect.setMarkerPos (some currentPos),
          Effect.setActiveTrail (trail2.map toJP ++ [currentPos]),
          Effect.jumpTo (some leadPos) ls.zoomT ls.pitchT],
         FrameRes.next { ls with
           currentPathIdx := idx2, segmentProgress := seg2,
           distanceCovered := dc2, p1 := q1, p2 := q2, activeTrail := trail2 })

/-- Static configuration of one `animateJourney` call: the journey (with
`none` for a missing/null argument), the merged settings, which optional
callbacks/hooks were supplied, and the external geodesic distance
function (`turf.distance`, an opaque collaborator). -/
structure DirCfg : Type where
  journey : Option (List Leg)
  settings : Settings
  hasShowLabel : Bool
  hasOnComplete : Bool
  hasOnError : Bool
  dist : Point → Point → ℚ

/-- The legs list (empty when the journey argument is missing). -/
def DirCfg.legs (cfg : DirCfg) : List Leg := cfg.journey.getD []

/-- A leg with no data, for out-of-range lookups that cannot occur on the
paths the machine takes. -/
def emptyLeg : Leg := ⟨Mode.car, [], none, none⟩

/-- Resumption points of `animateJourney`: each constructor is the
continuation that runs when one of the `await`s (or one scheduled frame)
resumes.  `completed` is the `completedLegsCoords` accumulator captured by
the continuation. -/
inductive DirState : Type
  | open1
  | open2
  | flyWait (i : ℕ) (completed : List (List Point))
  | inLeg (i : ℕ) (completed : List (List Point)) (ls : LegState)
  | legDone (i : ℕ) (completed : List (List Point))
  | arr1 (i : ℕ) (completed : List (List Point))
  | arr2 (i : ℕ) (completed : List (List Point))
deriving DecidableEq

/-- Entry into iteration `i` of the leg loop (lines 122–143): the loop
condition, the staleness guard, mode/profile resolution, the marker glyph,
the camera fly, then the `await wait(800)` suspension — or, past the last
leg, the finale `if (onComplete && currentRunId === myRunId) onComplete()`
(line 182). -/
def legEnter (cfg : DirCfg) (rid mid : ℕ) (i : ℕ)
    (completed : List (List Point)) : List Effect × Option DirState :=
  if cfg.legs.length ≤ i then
    (if cfg.hasOnComplete ∧ rid = mid then [Effect.callOnComplete] else [], none)
  else if rid ≠ mid then ([], none)
  else
    let leg := cfg.legs.getD i emptyLeg
    ([Effect.setMarkerText (modeIcon leg.mode),
      Effect.flyTo leg.pathCoords.head? (legZoom cfg.settings leg.mode)
        (legPitch leg.mode)],
     some (DirState.flyWait i completed))

/-- One resumption step of the Director: re-check the run generation
immediately after the suspension, then run the continuation up to the next
suspension point (or to return).  `none` means the async function
returned / the run ended; no further continuation is scheduled. -/
def dirStep (cfg : DirCfg) (rid mid : ℕ) :
    DirState → List Effect × Option DirState
  | DirState.open1 =>
    if rid ≠ mid then ([], none)
    else ([Effect.hideLabel], some DirState.open2)
  | DirState.open2 =>
    if rid ≠ mid then ([], none)
    else legEnter cfg rid mid 0 []
  | DirState.flyWait i completed =>
    if rid ≠ mid then ([], none)
    else
      let leg := cfg.legs.getD i emptyLeg
      match legInit cfg.dist leg.pathCoords (legSpeed cfg.settings leg.mode)
        (legZoom cfg.settings leg.mode) (legPitch leg.mode) with
      | (effs, none) => (effs, some (DirState.legDone i completed))
      | (effs, some ls) => (effs, some (DirState.inLeg i completed ls))
  | DirState.inLeg i completed ls =>
    match frame cfg.dist rid mid ls with
    | (effs, FrameRes.resolved) => (effs, some (DirState.legDone i completed))
    | (effs, FrameRes.next ls') => (effs, some (DirState.inLeg i completed ls'))
  | DirState.legDone i completed =>
    if rid ≠ mid then ([], none)
    else
      let leg := cfg.legs.getD i emptyLeg
      let completed' := completed ++ [leg.pathCoords]
      let base := [Effect.setActiveTrail [], Effect.setCompletedTrail completed']
      if cfg.hasShowLabel then
        (base ++ [Effect.showLabel leg.toName, Effect.easeToArr],
         some (DirState.arr1 i completed'))
      else
        let (e2, s2) := legEnter cfg rid mid (i + 1) completed'
        (base ++ e2, s2)
  | DirState.arr1 i completed =>
    if rid ≠ mid then ([], none)
    else ([Effect.hideLabel], some (DirState.arr2 i completed))
  | DirState.arr2 i completed =>
    if rid ≠ mid then ([], none)
    else legEnter cfg rid mid (i + 1) completed

/-- JS truthiness of an optional label (absent and the empty string are
falsy). -/
def truthyStr : Option String → Bool
  | none => false
  | some s => s ≠ ""

/-- The synchronous part of `animateJourney` (lines 74–122), run right
after the generation capture: validation of an empty or missing journey,
the opening sequence (marker glyph and position, cleared trails, the
establishing camera), the optional start label, and entry into the leg
loop when no label pause is taken. -/
def dirStart (cfg : DirCfg) (rid mid : ℕ) : List Effect × Option DirState :=
  match cfg.journey with
  | none => (if cfg.hasOnComplete then [Effect.callOnComplete] else [], none)
  | some [] => (if cfg.hasOnComplete then [Effect.callOnComplete] else [], none)
  | some (l0 :: _) =>
    let firstPoint := l0.pathCoords.head?
    let pre :=
      [Effect.setMarkerText (modeIcon l0.mode),
       Effect.setMarkerPos (firstPoint.map toJP),
       Effect.setActiveTrail [],
       Effect.setCompletedTrail [],
       Effect.jumpTo (firstPoint.map toJP) (establishingZoom cfg.settings) 0]
    if cfg.hasShowLabel ∧ truthyStr l0.fromName then
      (pre ++ [Effect.showLabel l0.fromName,
               Effect.easeToOpen (jsOr (modeZoom cfg.settings .car) 10 - 1)],
       some DirState.open1)
    else
      let (e2, s2) := legEnter cfg rid mid 0 []
      (pre ++ e2, s2)

/-- Iterate `dirStep` for at most `fuel` resumptions, concatenating the
emitted effects; the second component is `none` when the run ended and
`some s` when fuel ran out with continuation `s` still pending. -/
def dirRun (fuel : ℕ) (cfg : DirCfg) (rid mid : ℕ) (s : DirState) :
    List Effect × Option DirState :=
  match fuel with
  | 0 => ([], some s)
  | fuel + 1 =>
    match dirStep cfg rid mid s with
    | (e, none) => (e, none)
    | (e, some s') =>
      let (e2, o) := dirRun fuel cfg rid mid s'
      (e ++ e2, o)

/-- A whole run: the synchronous start followed by up to `fuel`
resumptions. -/
def runAll (fuel : ℕ) (cfg : DirCfg) (rid mid : ℕ) : List Effect × Option DirState :=
  match dirStart cfg rid mid with
  | (e, none) => (e, none)
  | (e, some s) =>
    let (e2, o) := dirRun fuel cfg rid mid s
    (e ++ e2, o)

/-- The Director's `catch` block (lines 184–190): log, and only when the
run is still current, `stopAnimation()` (bumping the live generation) then
`onError` when supplied.  The second component is the live generation
after the handler. -/
def dirCatch (rid mid : ℕ) (hasOnError : Bool) : List Effect × ℕ :=
  if rid = mid then
    ([Effect.consoleError, Effect.stopAnim] ++
       (if hasOnError then [Effect.callOnError] else []),
     rid + 1)
  else ([Effect.consoleError], rid)

/-- Count of `onComplete` invocations in an effect trace. -/
def countOC (effs : List Effect) : ℕ :=
  effs.countP fun e => match e with | Effect.callOnComplete => true | _ => false

/-- Count of `onLegStart` invocations in an effect trace. -/
def countLS (effs : List Effect) : ℕ :=
  effs.countP fun e => match e with | Effect.callOnLegStart _ => true | _ => false

/-- Count of `onError` invocations in an effect trace. -/
def countOE (effs : List Effect) : ℕ :=
  effs.countP fun e => match e with | Effect.callOnError => true | _ => false

/-- The committed-trail payload of an effect, when it has one. -/
def completedPayload : Effect → Option (List (List Point))
  | Effect.setCompletedTrail l => some l
  | _ => none

/-- The payload of the last committed-trail publication of a trace: the
final state of the gray completed-trail layer. -/
def lastCompleted (effs : List Effect) : Option (List (List Point)) :=
  (effs.filterMap completedPayload).getLast?

/-- A concrete instantiation of the external geodesic distance collaborator
(`turf.distance`) for evaluating the machine on concrete inputs: the
taxicab metric, which is nonnegative, symmetric and zero on equal points.
The animator theorems quantify over the distance function. -/
def taxi : Point → Point → ℚ := fun a b => |b.1 - a.1| + |b.2 - a.2|

/-- The `segmentProgress` left behind by a frame execution (`none` when the
frame resolved the leg). -/
def frameSeg (r : List Effect × FrameRes) : Option JNum :=
  match r.2 with
  | FrameRes.next ls => some ls.segmentProgress
  | FrameRes.resolved => none

/-- A two-point, one-kilometre path. -/
def c3path : List Point := [(0, 0), (1, 0)]

/-- The loop state `animateLeg` builds for `c3path` at car speed `0.8`
(so `REAL_SPEED = 0.16`). -/
def c3ls : LegState :=
  { path := c3path, speedReal := 4/25, totalDist := 1, zoomT := 10,
    pitchT := 40, distanceCovered := 0, currentPathIdx := 0,
    segmentProgress := JNum.num 0, p1 := (0, 0), p2 := (1, 0),
    activeTrail := [(0, 0)] }

/-- A path whose first segment is degenerate (duplicate point). -/
def c10path : List Point := [(0, 0), (0, 0), (1, 0)]

/-- The loop state `animateLeg` builds for `c10path` at car speed. -/
def c10ls : LegState :=
  { path := c10path, speedReal := 4/25, totalDist := 1, zoomT := 10,
    pitchT := 40, distanceCovered := 0, currentPathIdx := 0,
    segmentProgress := JNum.num 0, p1 := (0, 0), p2 := (0, 0),
    activeTrail := [(0, 0)] }

/-- Configuration whose journey argument is the empty list. -/
def cfg5 : DirCfg := ⟨some [], noSettings, false, true, false, taxi⟩

/-- Configuration whose first (and only) leg is a plane leg, with default
profiles. -/
def cfg8 : DirCfg :=
  ⟨some [⟨Mode.plane, [(0, 0), (50, 50)], none, none⟩], noSettings,
   false, true, false, taxi⟩

/-- Configuration with one single-point car leg (a leg that is treated as
already arrived), default profiles, no narration hooks. -/
def cfg9 : DirCfg :=
  ⟨some [⟨Mode.car, [(0, 0)], none, none⟩], noSettings, false, true, false, taxi⟩

/-- Run-time invariant tying a resumption state's captured
`completedLegsCoords` to the prefix of the journey already committed. -/
def stInv (legs : List Leg) : DirState → Prop
  | DirState.open1 => True
  | DirState.open2 => True
  | DirState.flyWait i c => c = (legs.take i).map Leg.pathCoords ∧ i < legs.length
  | DirState.inLeg i c _ => c = (legs.take i).map Leg.pathCoords ∧ i < legs.length
  | DirState.legDone i c => c = (legs.take i).map Leg.pathCoords ∧ i < legs.length
  | DirState.arr1 i c => c = (legs.take (i + 1)).map Leg.pathCoords ∧ i < legs.length
  | DirState.arr2 i c => c = (legs.take (i + 1)).map Leg.pathCoords ∧ i < legs.length

/-- States from which the rest of a current run emits no further
committed-trail publication: the arrival narration of the final leg, or the
opening states of an empty journey. -/
def stDone (legs : List Leg) : DirState → Prop
  | DirState.open1 => legs = []
  | DirState.open2 => legs = []
  | DirState.arr1 i _ => legs.length ≤ i + 1
  | DirState.arr2 i _ => legs.length ≤ i + 1
  | _ => False

/-- Claim C2 (code bug).  The spec asserts the per-frame ease factor is a
scalar in `[0.1, 1.0]`, ramping `0.1→1.0` over the first 10 % of progress.
In the code, `lerp` from `geo.js` interpolates points (it reads `p1[0]`,
`p1[1]`), so `lerp(0.1, 1, progressRatio * 10)` evaluates under JavaScript
semantics to the array `[NaN, NaN]`: at `progressRatio = 0` — the very
first frame of every leg — the computed ease factor is `[NaN, NaN]`, not a
scalar, and the derived `moveDist = REAL_SPEED * easeFactor` coerces to
`NaN`. -/
theorem C2_easeFactor_not_scalar :
    easeFactorJS 0 = JSVal.arr [JSVal.nan, JSVal.nan] ∧
    JNum.mul (JNum.num (4/25)) (JSVal.toNumber (easeFactorJS 0)) = JNum.nan ∧
    easeFactorJS (1/2) = JSVal.num 1 := by
  refine ⟨by with_unfolding_all rfl, by with_unfolding_all rfl, by with_unfolding_all rfl⟩

/-- Claim C3 (code bug).  The invariant `0 ≤ segmentFraction < 1` before
and after each frame fails on the real code: on the first frame of the
two-point leg `c3path` (progress ratio 0, hence the `[NaN, NaN]` ease
factor of C2), the frame adds `NaN / segDist` to `segmentProgress`, leaving
`segmentProgress = NaN` — which satisfies neither `0 ≤ f` nor `f < 1` —
and the leg stalls there forever. -/
theorem C3_segmentFraction_nan :
    (legInit taxi c3path (4/5) 10 40).2 = some c3ls ∧
    c3ls.segmentProgress = JNum.num 0 ∧
    frameSeg (frame taxi 1 1 c3ls) = some JNum.nan := by
  refine ⟨by with_unfolding_all rfl, rfl, by with_unfolding_all rfl⟩

/-- Claim C5: an empty (or missing) journey invokes `onComplete` exactly
once, as the run's only side effect — no camera, marker or trail mutation
precedes it — and the run returns. -/
theorem C5_empty_journey (cfg : DirCfg) (rid mid : ℕ)
    (h : cfg.journey = none ∨ cfg.journey = some [])
    (hc : cfg.hasOnComplete = true) :
    dirStart cfg rid mid = ([Effect.callOnComplete], none) := by
  rcases h with h | h <;> simp [dirStart, h, hc]

/-- Witness for C5 at a concrete configuration. -/
theorem C5_empty_journey_wit :
    (cfg5.journey = none ∨ cfg5.journey = some []) ∧
    dirStart cfg5 1 1 = ([Effect.callOnComplete], none) :=
  ⟨Or.inr rfl, C5_empty_journey cfg5 1 1 (Or.inr rfl) rfl⟩

/-- Claim C6: a leg with nonpositive speed, or with fewer than two path
points (zero total distance), resolves immediately in `animateLeg`'s
prelude — no frame is ever scheduled, so the leg cannot hang. -/
theorem C6_degenerate_leg (dist : Point → Point → ℚ) (path : List Point)
    (s z p : ℚ) (h : s ≤ 0 ∨ path.length < 2) :
    legInit dist path s z p = ([], none) := by
  rcases h with hs | hp
  · simp only [legInit]
    split
    · rfl
    · rename_i hcond
      rw [if_pos]
      have h2 : ¬s < 0 := (not_or.mp hcond).2
      have h3 : s = 0 := le_antisymm hs (not_lt.mp h2)
      rw [h3]
      norm_num
  · have hz : sumAdj dist path = 0 := by
      cases path with
      | nil => rfl
      | cons a t =>
        cases t with
        | nil => rfl
        | cons b t2 =>
          simp only [List.length] at hp
          omega
    simp only [legInit]
    rw [if_pos (Or.inl (by rw [hz]; norm_num))]

/-- Witness for C6: zero speed on a genuine two-point path. -/
theorem C6_degenerate_leg_wit :
    ((0 : ℚ) ≤ 0 ∨ ([((0 : ℚ), (0 : ℚ)), (3, 0)] : List Point).length < 2) ∧
    legInit taxi [((0 : ℚ), (0 : ℚ)), (3, 0)] 0 10 40 = ([], none) :=
  ⟨Or.inl le_rfl, C6_degenerate_leg taxi _ 0 10 40 (Or.inl le_rfl)⟩

/-- Claim C7: the Director's `catch` handler.  When the run is still
current it logs, stops the session (bumping the live generation, so the
run id is invalidated) and then calls `onError` when supplied — exactly one
`onError` invocation, and never `onComplete`; when the run is stale it only
logs: no stop, no callback. -/
theorem C7_catch_behavior (rid mid : ℕ) (hasErr : Bool) :
    dirCatch rid mid hasErr =
      ((if rid = mid then
          [Effect.consoleError, Effect.stopAnim] ++
            (if hasErr then [Effect.callOnError] else [])
        else [Effect.consoleError]),
       if rid = mid then rid + 1 else rid) ∧
    countOE (dirCatch rid mid hasErr).1 =
      (if rid = mid ∧ hasErr = true then 1 else 0) ∧
    (dirCatch mid mid hasErr).2 = mid + 1 ∧
    (dirCatch (mid + 1) mid hasErr).1 = [Effect.consoleError] ∧
    countOC (dirCatch rid mid hasErr).1 = 0 := by
  refine ⟨?_, ?_, ?_, ?_, ?_⟩
  · unfold dirCatch
    split <;> rfl
  · unfold dirCatch countOE
    by_cases h : rid = mid <;> cases hasErr <;> simp [h]
  · simp [dirCatch]
  · simp [dirCatch]
  · unfold dirCatch countOC
    by_cases h : rid = mid <;> cases hasErr <;> simp [h]

/-- Claim C10: when the current segment is degenerate
(`getDistance(p1, p2) <= 0.0001`) and the incoming fraction is below 1 (the
between-frames invariant), a frame advances `pathIndex` past exactly that
one segment, leaves the committed trail, `distanceCovered` and
`segmentFraction` untouched (the fraction is applied as-is to the next
segment), or — when that advance exhausts the path — resolves with no
effects at all. -/
theorem C10_degenerate_segment_skip (dist : Point → Point → ℚ) (rid : ℕ)
    (ls : LegState) (hdeg : dist ls.p1 ls.p2 ≤ 1/10000)
    (hseg : ls.segmentProgress.ge1 = false) :
    (∃ effs ls', frame dist rid rid ls = (effs, FrameRes.next ls') ∧
       ls'.currentPathIdx = ls.currentPathIdx + 1 ∧
       ls'.activeTrail = ls.activeTrail ∧
       ls'.distanceCovered = ls.distanceCovered ∧
       ls'.segmentProgress = ls.segmentProgress) ∨
    frame dist rid rid ls = ([], FrameRes.resolved) := by
  have hadv : advance dist ls.path ls.segmentProgress (ls.currentPathIdx + 1)
      ls.p2 ls.activeTrail ls.distanceCovered =
      AdvRes.cont ls.segmentProgress (ls.currentPathIdx + 1)
        ls.activeTrail ls.distanceCovered := by
    rw [advance.eq_def]
    simp [hseg]
  by_cases hend : ls.path.length - 1 ≤ ls.currentPathIdx + 1
  · right
    simp only [frame, ne_eq, not_true_eq_false, if_false, if_pos hdeg, hadv,
      if_pos hend]
  · left
    simp only [frame, ne_eq, not_true_eq_false, if_false, if_pos hdeg, hadv,
      if_neg hend]
    exact ⟨_, _, rfl, rfl, rfl, rfl, rfl⟩

/-- Shape of the catch-up loop's results: when it resolves the leg it emits
exactly the final marker snap and the full-path trail publication, and when
it exits normally the trail has only been appended to. -/
lemma advance_shape (dist : Point → Point → ℚ) (path : List Point)
    (seg : JNum) (idx : ℕ) (p2 : Point) (trail : List Point) (dc : ℚ) :
    (∀ effs, advance dist path seg idx p2 trail dc = AdvRes.resolve effs →
       ∃ a b, effs = [Effect.setMarkerPos a, Effect.setActiveTrail b]) ∧
    (∀ seg2 idx2 trail2 dc2,
       advance dist path seg idx p2 trail dc =
         AdvRes.cont seg2 idx2 trail2 dc2 → trail <+: trail2) := by
  induction seg, idx, p2, trail, dc using advance.induct dist path with
  | case1 seg idx p2 trail dc h1 idxl h2 =>
    have h2a : path.length - 1 ≤ idx + 1 := h2
    constructor
    · intro effs hh
      rw [advance, if_pos h1] at hh
      simp only [] at hh
      rw [if_pos h2a] at hh
      cases hh
      exact ⟨_, _, rfl⟩
    · intro s2 i2 t2 d2 hh
      rw [advance, if_pos h1] at hh
      simp only [] at hh
      rw [if_pos h2a] at hh
      cases hh
  | case2 seg idx p2 trail dc h1 segl idxl traill h2 p1l p2l dcl ih =>
    have h2a : ¬path.length - 1 ≤ idx + 1 := h2
    constructor
    · intro effs hh
      rw [advance, if_pos h1] at hh
      simp only [] at hh
      rw [if_neg h2a] at hh
      exact ih.1 effs hh
    · intro s2 i2 t2 d2 hh
      rw [advance, if_pos h1] at hh
      simp only [] at hh
      rw [if_neg h2a] at hh
      exact List.IsPrefix.trans (List.prefix_append _ _) (ih.2 s2 i2 t2 d2 hh)
  | case3 seg idx p2 trail dc h1 =>
    constructor
    · intro effs hh
      rw [advance, if_neg h1] at hh
      cases hh
    · intro s2 i2 t2 d2 hh
      rw [advance, if_neg h1] at hh
      cases hh
      exact List.prefix_rfl

/-- Every effect a frame emits is a marker, active-trail or camera
mutation — never a completed-trail commit, never a callback. -/
lemma frame_effect_kinds (dist : Point → Point → ℚ) (rid runId : ℕ)
    (ls : LegState) :
    ∀ e ∈ (frame dist rid runId ls).1,
      (∃ a, e = Effect.setMarkerPos a) ∨ (∃ a, e = Effect.setActiveTrail a) ∨
      (∃ a b c, e = Effect.jumpTo a b c) := by
  intro e he
  unfold frame at he
  split at he
  · simp at he
  · simp only [] at he
    split at he
    · rename_i effs2 heq
      rcases (advance_shape dist ls.path _ _ _ _ _).1 effs2 heq with ⟨a, b, rfl⟩
      simp only [List.mem_cons, List.not_mem_nil, or_false] at he
      rcases he with rfl | rfl
      · exact Or.inl ⟨a, rfl⟩
      · exact Or.inr (Or.inl ⟨b, rfl⟩)
    · rename_i s2 i2 t2 d2 heq
      split at he
      · simp at he
      · simp only [List.mem_cons, List.not_mem_nil, or_false] at he
        rcases he with rfl | rfl | rfl
        · exact Or.inl ⟨_, rfl⟩
        · exact Or.inr (Or.inl ⟨_, rfl⟩)
        · exact Or.inr (Or.inr ⟨_, _, _, rfl⟩)

/-- The committed `activeTrail` only ever grows: across any frame that
schedules a successor state, the old trail is a prefix of the new one. -/
lemma frame_trail_prefix (dist : Point → Point → ℚ) (rid runId : ℕ)
    (ls : LegState) (effs : List Effect) (ls' : LegState)
    (h : frame dist rid runId ls = (effs, FrameRes.next ls')) :
    ls.activeTrail <+: ls'.activeTrail := by
  unfold frame at h
  split at h
  · simp at h
  · simp only [] at h
    split at h
    · rename_i effs2 heq
      simp at h
    · rename_i s2 i2 t2 d2 heq
      split at h
      · simp at h
      · injection h with h1 h2
        injection h2 with h3
        have hpre := (advance_shape dist ls.path _ _ _ _ _).2 s2 i2 t2 d2 heq
        rw [← h3]
        exact hpre

/-- A frame never fires `onLegStart`. -/
lemma countLS_frame (dist : Point → Point → ℚ) (rid runId : ℕ) (ls : LegState) :
    countLS (frame dist rid runId ls).1 = 0 := by
  unfold countLS
  refine List.countP_eq_zero.mpr fun e he => ?_
  rcases frame_effect_kinds dist rid runId ls e he with ⟨a, rfl⟩ | ⟨a, rfl⟩ | ⟨a, b, c, rfl⟩ <;> simp

/-- A frame never fires `onComplete`. -/
lemma countOC_frame (dist : Point → Point → ℚ) (rid runId : ℕ) (ls : LegState) :
    countOC (frame dist rid runId ls).1 = 0 := by
  unfold countOC
  refine List.countP_eq_zero.mpr fun e he => ?_
  rcases frame_effect_kinds dist rid runId ls e he with ⟨a, rfl⟩ | ⟨a, rfl⟩ | ⟨a, b, c, rfl⟩ <;> simp

/-- A frame never publishes the completed trail. -/
lemma noCompleted_frame (dist : Point → Point → ℚ) (rid runId : ℕ) (ls : LegState) :
    (frame dist rid runId ls).1.filterMap completedPayload = [] := by
  refine List.filterMap_eq_nil.mpr fun e he => ?_
  rcases frame_effect_kinds dist rid runId ls e he with ⟨a, rfl⟩ | ⟨a, rfl⟩ | ⟨a, b, c, rfl⟩ <;> rfl

/-- `animateLeg`'s prelude either resolves silently or publishes exactly the
initial one-point trail. -/
lemma legInit_shape (dist : Point → Point → ℚ) (path : List Point)
    (sb z p : ℚ) :
    legInit dist path sb z p = ([], none) ∨
    ∃ a ls, legInit dist path sb z p = ([Effect.setActiveTrail a], some ls) := by
  simp only [legInit]
  split
  · exact Or.inl rfl
  · split
    · exact Or.inl rfl
    · exact Or.inr ⟨_, _, rfl⟩

/-- A still-current loop entry with legs remaining flies the camera and
suspends. -/
lemma legEnter_current_cons (cfg : DirCfg) (mid i : ℕ)
    (c : List (List Point)) (h : ¬cfg.legs.length ≤ i) :
    legEnter cfg mid mid i c =
      ([Effect.setMarkerText (modeIcon (cfg.legs.getD i emptyLeg).mode),
        Effect.flyTo (cfg.legs.getD i emptyLeg).pathCoords.head?
          (legZoom cfg.settings (cfg.legs.getD i emptyLeg).mode)
          (legPitch (cfg.legs.getD i emptyLeg).mode)],
       some (DirState.flyWait i c)) := by
  unfold legEnter
  rw [if_neg h, if_neg (by simp)]

/-- `onLegStart` never appears among the loop-entry effects. -/
lemma legEnter_countLS (cfg : DirCfg) (rid mid i : ℕ) (c : List (List Point)) :
    countLS (legEnter cfg rid mid i c).1 = 0 := by
  unfold legEnter
  split
  · split <;> simp [countLS]
  · split
    · simp [countLS]
    · simp [countLS]

/-- Loop entry fires `onComplete` only when it halts at the finale, and then
exactly once (when the callback is supplied). -/
lemma legEnter_countOC (cfg : DirCfg) (mid i : ℕ) (c : List (List Point)) :
    (∀ e s', legEnter cfg mid mid i c = (e, some s') → countOC e = 0) ∧
    (∀ e, legEnter cfg mid mid i c = (e, none) →
       countOC e = if cfg.hasOnComplete then 1 else 0) := by
  unfold legEnter
  split
  · constructor
    · intro e s' h
      simp at h
    · intro e h
      have he : (if cfg.hasOnComplete = true ∧ mid = mid then
          [Effect.callOnComplete] else []) = e := congrArg Prod.fst h
      rw [← he]
      by_cases hc : cfg.hasOnComplete <;> simp [hc, countOC]
  · rw [if_neg (show ¬(mid ≠ mid) from fun hne => hne rfl)]
    constructor
    · intro e s' h
      have he : [Effect.setMarkerText (modeIcon (cfg.legs.getD i emptyLeg).mode),
          Effect.flyTo (cfg.legs.getD i emptyLeg).pathCoords.head?
            (legZoom cfg.settings (cfg.legs.getD i emptyLeg).mode)
            (legPitch (cfg.legs.getD i emptyLeg).mode)] = e := congrArg Prod.fst h
      rw [← he]
      simp [countOC]
    · intro e h
      simp at h

/-- No resumption step of the Director ever fires `onLegStart`: the
callback parameter is accepted but the current revision never calls it. -/
lemma dirStep_countLS (cfg : DirCfg) (rid mid : ℕ) (s : DirState) :
    countLS (dirStep cfg rid mid s).1 = 0 := by
  cases s with
  | open1 =>
    simp only [dirStep]
    split <;> simp [countLS]
  | open2 =>
    simp only [dirStep]
    split
    · simp [countLS]
    · exact legEnter_countLS cfg rid mid 0 []
  | flyWait i c =>
    simp only [dirStep]
    split
    · simp [countLS]
    · rcases legInit_shape cfg.dist (cfg.legs.getD i emptyLeg).pathCoords
        (legSpeed cfg.settings (cfg.legs.getD i emptyLeg).mode)
        (legZoom cfg.settings (cfg.legs.getD i emptyLeg).mode)
        (legPitch (cfg.legs.getD i emptyLeg).mode) with h | ⟨a, ls, h⟩ <;>
        rw [h] <;> simp [countLS]
  | inLeg i c ls =>
    have hf := countLS_frame cfg.dist rid mid ls
    simp only [dirStep]
    rcases hfr : frame cfg.dist rid mid ls with ⟨e, r⟩
    rw [hfr] at hf
    cases r <;> simpa using hf
  | legDone i c =>
    simp only [dirStep]
    split
    · simp [countLS]
    · split
      · simp [countLS]
      · rcases hle : legEnter cfg rid mid (i + 1)
            (c ++ [(cfg.legs.getD i emptyLeg).pathCoords]) with ⟨e2, s2⟩
        have := legEnter_countLS cfg rid mid (i + 1)
          (c ++ [(cfg.legs.getD i emptyLeg).pathCoords])
        rw [hle] at this
        simp only [hle]
        simp [countLS, List.countP_append] at this ⊢
        exact this
  | arr1 i c =>
    simp only [dirStep]
    split <;> simp [countLS]
  | arr2 i c =>
    simp only [dirStep]
    split
    · simp [countLS]
    · exact legEnter_countLS cfg rid mid (i + 1) c

/-- No run trace ever fires `onLegStart`. -/
lemma dirRun_countLS (cfg : DirCfg) (rid mid : ℕ) :
    ∀ (fuel : ℕ) (s : DirState), countLS (dirRun fuel cfg rid mid s).1 = 0
  | 0, s => by simp [dirRun, countLS]
  | fuel + 1, s => by
    rcases hstep : dirStep cfg rid mid s with ⟨e, o⟩
    have he := dirStep_countLS cfg rid mid s
    rw [hstep] at he
    cases o with
    | none => simp only [dirRun, hstep]; exact he
    | some s' =>
      have hrec := dirRun_countLS cfg rid mid fuel s'
      rcases hrun : dirRun fuel cfg rid mid s' with ⟨e2, o2⟩
      rw [hrun] at hrec
      simp only [dirRun, hstep, hrun]
      simp only [countLS, List.countP_append] at he hrec ⊢
      omega

/-- The synchronous start never fires `onLegStart` either. -/
lemma dirStart_countLS (cfg : DirCfg) (rid mid : ℕ) :
    countLS (dirStart cfg rid mid).1 = 0 := by
  rcases hj : cfg.journey with _ | legs
  · simp only [dirStart]
    rw [hj]
    dsimp only
    split <;> simp [countLS]
  · rcases legs with _ | ⟨l0, rest⟩
    · simp only [dirStart]
      rw [hj]
      dsimp only
      split <;> simp [countLS]
    · simp only [dirStart]
      rw [hj]
      dsimp only
      split
      · simp [countLS]
      · have hl := legEnter_countLS cfg rid mid 0 []
        simp only [countLS] at hl
        simp [countLS, List.countP_cons, hl]

/-- A current-generation step fires `onComplete` exactly when it is the
halting finale step. -/
lemma dirStep_countOC (cfg : DirCfg) (mid : ℕ) (s : DirState) :
    (∀ e s', dirStep cfg mid mid s = (e, some s') → countOC e = 0) ∧
    (∀ e, dirStep cfg mid mid s = (e, none) →
       countOC e = if cfg.hasOnComplete then 1 else 0) := by
  cases s with
  | open1 =>
    simp only [dirStep]
    rw [if_neg (show ¬(mid ≠ mid) from fun hne => hne rfl)]
    exact ⟨fun e s' h => by cases h; simp [countOC], fun e h => by simp at h⟩
  | open2 =>
    simp only [dirStep]
    rw [if_neg (show ¬(mid ≠ mid) from fun hne => hne rfl)]
    exact legEnter_countOC cfg mid 0 []
  | flyWait i c =>
    simp only [dirStep]
    rw [if_neg (show ¬(mid ≠ mid) from fun hne => hne rfl)]
    rcases legInit_shape cfg.dist (cfg.legs.getD i emptyLeg).pathCoords
        (legSpeed cfg.settings (cfg.legs.getD i emptyLeg).mode)
        (legZoom cfg.settings (cfg.legs.getD i emptyLeg).mode)
        (legPitch (cfg.legs.getD i emptyLeg).mode) with h | ⟨a, ls, h⟩ <;>
      rw [h] <;>
      exact ⟨fun e s' hh => by cases hh; simp [countOC], fun e hh => by simp at hh⟩
  | inLeg i c ls =>
    have hf := countOC_frame cfg.dist mid mid ls
    simp only [dirStep]
    rcases hfr : frame cfg.dist mid mid ls with ⟨e, r⟩
    rw [hfr] at hf
    cases r <;>
      exact ⟨fun e2 s' hh => by cases hh; simpa using hf, fun e2 hh => by simp at hh⟩
  | legDone i c =>
    simp only [dirStep]
    rw [if_neg (show ¬(mid ≠ mid) from fun hne => hne rfl)]
    split
    · exact ⟨fun e s' h => by cases h; simp [countOC], fun e h => by simp at h⟩
    · rcases hle : legEnter cfg mid mid (i + 1)
          (c ++ [(cfg.legs.getD i emptyLeg).pathCoords]) with ⟨e2, s2⟩
      have hoc := legEnter_countOC cfg mid (i + 1)
        (c ++ [(cfg.legs.getD i emptyLeg).pathCoords])
      rw [hle] at hoc
      cases s2 with
      | none =>
        refine ⟨fun e s' h => by simp [hle] at h, fun e h => ?_⟩
        simp only [hle] at h
        have he : e = [Effect.setActiveTrail [],
            Effect.setCompletedTrail (c ++ [(cfg.legs.getD i emptyLeg).pathCoords])] ++ e2 := by
          have := congrArg Prod.fst h
          simpa using this.symm
        subst he
        have h2 := hoc.2 e2 rfl
        simp [countOC, List.countP_append] at h2 ⊢
        exact h2
      | some s2v =>
        refine ⟨fun e s' h => ?_, fun e h => by simp [hle] at h⟩
        simp only [hle] at h
        have he : e = [Effect.setActiveTrail [],
            Effect.setCompletedTrail (c ++ [(cfg.legs.getD i emptyLeg).pathCoords])] ++ e2 := by
          have := congrArg Prod.fst h
          simpa using this.symm
        subst he
        have h2 := hoc.1 e2 s2v rfl
        simp [countOC, List.countP_append] at h2 ⊢
        exact h2
  | arr1 i c =>
    simp only [dirStep]
    rw [if_neg (show ¬(mid ≠ mid) from fun hne => hne rfl)]
    exact ⟨fun e s' h => by cases h; simp [countOC], fun e h => by simp at h⟩
  | arr2 i c =>
    simp only [dirStep]
    rw [if_neg (show ¬(mid ≠ mid) from fun hne => hne rfl)]
    exact legEnter_countOC cfg mid (i + 1) c

/-- A current run that ends fires `onComplete` exactly once (when
supplied). -/
lemma dirRun_countOC (cfg : DirCfg) (mid : ℕ) :
    ∀ (fuel : ℕ) (s : DirState) (effs : List Effect),
      dirRun fuel cfg mid mid s = (effs, none) →
      countOC effs = if cfg.hasOnComplete then 1 else 0
  | 0, s, effs, h => by simp [dirRun] at h
  | fuel + 1, s, effs, h => by
    rcases hstep : dirStep cfg mid mid s with ⟨e, o⟩
    cases o with
    | none =>
      simp only [dirRun, hstep] at h
      have h1 : e = effs := congrArg Prod.fst h
      rw [← h1]
      exact (dirStep_countOC cfg mid s).2 e hstep
    | some s' =>
      simp only [dirRun, hstep] at h
      rcases hrun : dirRun fuel cfg mid mid s' with ⟨e2, o2⟩
      rw [hrun] at h
      have he : e ++ e2 = effs := congrArg Prod.fst h
      rw [← he]
      have h0 := (dirStep_countOC cfg mid s).1 e s' hstep
      have h1 : dirRun fuel cfg mid mid s' = (e2, none) := by
        have h2 := congrArg Prod.snd h
        simp only at h2
        rw [hrun, h2]
      have h2 := dirRun_countOC cfg mid fuel s' e2 h1
      simp only [countOC] at h0 h2 ⊢
      rw [List.countP_append, h0, h2]
      simp

/-- `onComplete` accounting for the synchronous start. -/
lemma dirStart_countOC (cfg : DirCfg) (mid : ℕ) :
    (∀ e s', dirStart cfg mid mid = (e, some s') → countOC e = 0) ∧
    (∀ e, dirStart cfg mid mid = (e, none) →
       countOC e = if cfg.hasOnComplete then 1 else 0) := by
  rcases hj : cfg.journey with _ | legs
  · constructor
    · intro e s' h
      simp only [dirStart] at h
      rw [hj] at h
      dsimp only at h
      simp at h
    · intro e h
      simp only [dirStart] at h
      rw [hj] at h
      dsimp only at h
      have h1 : (if cfg.hasOnComplete = true then [Effect.callOnComplete] else []) = e :=
        congrArg Prod.fst h
      rw [← h1]
      by_cases hc : cfg.hasOnComplete <;> simp [hc, countOC]
  · rcases legs with _ | ⟨l0, rest⟩
    · constructor
      · intro e s' h
        simp only [dirStart] at h
        rw [hj] at h
        dsimp only at h
        simp at h
      · intro e h
        simp only [dirStart] at h
        rw [hj] at h
        dsimp only at h
        have h1 : (if cfg.hasOnComplete = true then [Effect.callOnComplete] else []) = e :=
          congrArg Prod.fst h
        rw [← h1]
        by_cases hc : cfg.hasOnComplete <;> simp [hc, countOC]
    · have hcons : ¬cfg.legs.length ≤ 0 := by
        simp [DirCfg.legs, hj]
      constructor
      · intro e s' h
        simp only [dirStart] at h
        rw [hj] at h
        dsimp only at h
        split at h
        · have h1 : _ = e := congrArg Prod.fst h
          rw [← h1]
          simp [countOC]
        · rw [legEnter_current_cons cfg mid 0 [] hcons] at h
          have h1 : _ = e := congrArg Prod.fst h
          rw [← h1]
          simp [countOC]
      · intro e h
        simp only [dirStart] at h
        rw [hj] at h
        dsimp only at h
        split at h
        · simp at h
        · rw [legEnter_current_cons cfg mid 0 [] hcons] at h
          simp at h

/-- A complete current run fires `onComplete` exactly once (when
supplied). -/
lemma runAll_countOC (cfg : DirCfg) (mid fuel : ℕ) (effs : List Effect)
    (h : runAll fuel cfg mid mid = (effs, none)) :
    countOC effs = if cfg.hasOnComplete then 1 else 0 := by
  unfold runAll at h
  rcases hstart : dirStart cfg mid mid with ⟨e, o⟩
  rw [hstart] at h
  cases o with
  | none =>
    have h1 : e = effs := congrArg Prod.fst h
    rw [← h1]
    exact (dirStart_countOC cfg mid).2 e hstart
  | some s =>
    simp only at h
    rcases hrun : dirRun fuel cfg mid mid s with ⟨e2, o2⟩
    rw [hrun] at h
    have he : e ++ e2 = effs := congrArg Prod.fst h
    rw [← he]
    have h0 := (dirStart_countOC cfg mid).1 e s hstart
    have h1 : dirRun fuel cfg mid mid s = (e2, none) := by
      have h2 := congrArg Prod.snd h
      simp only at h2
      rw [hrun, h2]
    have h2 := dirRun_countOC cfg mid fuel s e2 h1
    simp only [countOC] at h0 h2 ⊢
    rw [List.countP_append, h0, h2]
    simp

/-- Trace concatenation looks up the final committed-trail publication
right-to-left. -/
lemma lastCompleted_append (a b : List Effect) :
    lastCompleted (a ++ b) = (lastCompleted b).elim (lastCompleted a) some := by
  unfold lastCompleted
  rw [List.filterMap_append]
  rcases hb : b.filterMap completedPayload with _ | ⟨x, xs⟩
  · simp
  · rw [List.getLast?_append_of_ne_nil _ (by simp)]
    rcases hl : (x :: xs).getLast? with _ | y
    · simp at hl
    · simp [hl]

/-- A frame publishes no committed trail. -/
lemma lastCompleted_frame (dist : Point → Point → ℚ) (rid runId : ℕ)
    (ls : LegState) : lastCompleted (frame dist rid runId ls).1 = none := by
  unfold lastCompleted
  rw [noCompleted_frame]
  rfl

/-- Loop entry publishes no committed trail. -/
lemma lastCompleted_legEnter (cfg : DirCfg) (rid mid i : ℕ)
    (c : List (List Point)) :
    lastCompleted (legEnter cfg rid mid i c).1 = none := by
  unfold legEnter
  split
  · split <;> simp [lastCompleted, completedPayload]
  · split
    · simp [lastCompleted, completedPayload]
    · simp [lastCompleted, completedPayload]

/-- Committing leg `i` extends the committed prefix by that leg's path. -/
lemma take_map_snoc (legs : List Leg) (i : ℕ) (h : i < legs.length) :
    (legs.take i).map Leg.pathCoords ++ [(legs.getD i emptyLeg).pathCoords] =
    (legs.take (i + 1)).map Leg.pathCoords := by
  rw [List.take_succ, List.map_append]
  congr 1
  rw [List.getD_eq_getElem?_getD, List.getElem?_eq_getElem h]
  simp

/-- Loop entry past the last leg is the finale. -/
lemma legEnter_finale (cfg : DirCfg) (rid mid i : ℕ) (c : List (List Point))
    (h : cfg.legs.length ≤ i) :
    legEnter cfg rid mid i c =
      ((if cfg.hasOnComplete = true ∧ rid = mid then [Effect.callOnComplete]
        else []), none) := by
  unfold legEnter
  rw [if_pos h]

/-- The still-current opening-label continuations. -/
lemma dirStep_open1_current (cfg : DirCfg) (mid : ℕ) :
    dirStep cfg mid mid DirState.open1 =
      ([Effect.hideLabel], some DirState.open2) := by
  simp only [dirStep]
  rw [if_neg (show ¬(mid ≠ mid) from fun hne => hne rfl)]

/-- The still-current continuation after the opening label pause. -/
lemma dirStep_open2_current (cfg : DirCfg) (mid : ℕ) :
    dirStep cfg mid mid DirState.open2 = legEnter cfg mid mid 0 [] := by
  simp only [dirStep]
  rw [if_neg (show ¬(mid ≠ mid) from fun hne => hne rfl)]

/-- The still-current arrival-label continuation. -/
lemma dirStep_arr1_current (cfg : DirCfg) (mid i : ℕ)
    (c : List (List Point)) :
    dirStep cfg mid mid (DirState.arr1 i c) =
      ([Effect.hideLabel], some (DirState.arr2 i c)) := by
  simp only [dirStep]
  rw [if_neg (show ¬(mid ≠ mid) from fun hne => hne rfl)]

/-- The still-current continuation after the arrival pause. -/
lemma dirStep_arr2_current (cfg : DirCfg) (mid i : ℕ)
    (c : List (List Point)) :
    dirStep cfg mid mid (DirState.arr2 i c) =
      legEnter cfg mid mid (i + 1) c := by
  simp only [dirStep]
  rw [if_neg (show ¬(mid ≠ mid) from fun hne => hne rfl)]

/-- A still-current leg completion with narration hooks: commit the leg,
show the arrival label and suspend. -/
lemma dirStep_legDone_label (cfg : DirCfg) (mid i : ℕ)
    (c : List (List Point)) (hsl : cfg.hasShowLabel = true) :
    dirStep cfg mid mid (DirState.legDone i c) =
      ([Effect.setActiveTrail [],
        Effect.setCompletedTrail (c ++ [(cfg.legs.getD i emptyLeg).pathCoords]),
        Effect.showLabel (cfg.legs.getD i emptyLeg).toName, Effect.easeToArr],
       some (DirState.arr1 i (c ++ [(cfg.legs.getD i emptyLeg).pathCoords]))) := by
  simp only [dirStep]
  rw [if_neg (show ¬(mid ≠ mid) from fun hne => hne rfl), if_pos hsl]
  rfl

/-- A still-current leg completion without narration hooks: commit the leg
and fall through into the next loop iteration. -/
lemma dirStep_legDone_nolabel (cfg : DirCfg) (mid i : ℕ)
    (c : List (List Point)) (hsl : cfg.hasShowLabel = false) :
    dirStep cfg mid mid (DirState.legDone i c) =
      ([Effect.setActiveTrail [],
        Effect.setCompletedTrail (c ++ [(cfg.legs.getD i emptyLeg).pathCoords])] ++
         (legEnter cfg mid mid (i + 1)
           (c ++ [(cfg.legs.getD i emptyLeg).pathCoords])).1,
       (legEnter cfg mid mid (i + 1)
         (c ++ [(cfg.legs.getD i emptyLeg).pathCoords])).2) := by
  simp only [dirStep]
  rw [if_neg (show ¬(mid ≠ mid) from fun hne => hne rfl),
    if_neg (show ¬(cfg.hasShowLabel = true) by simp [hsl])]

/-- Step decomposition of a successful fuelled run. -/
lemma dirRun_succ_some (fuel : ℕ) (cfg : DirCfg) (rid mid : ℕ)
    (s : DirState) (e : List Effect) (s' : DirState)
    (hstep : dirStep cfg rid mid s = (e, some s')) (effs : List Effect)
    (h : dirRun (fuel + 1) cfg rid mid s = (effs, none)) :
    ∃ e2, dirRun fuel cfg rid mid s' = (e2, none) ∧ effs = e ++ e2 := by
  simp only [dirRun, hstep] at h
  rcases hrun : dirRun fuel cfg rid mid s' with ⟨e2, o2⟩
  rw [hrun] at h
  refine ⟨e2, ?_, (congrArg Prod.fst h).symm⟩
  have h2 : o2 = none := congrArg Prod.snd h
  subst h2
  rfl

/-- Step decomposition of a run that halts at this step. -/
lemma dirRun_succ_none (fuel : ℕ) (cfg : DirCfg) (rid mid : ℕ)
    (s : DirState) (e : List Effect)
    (hstep : dirStep cfg rid mid s = (e, none)) (effs : List Effect)
    (h : dirRun (fuel + 1) cfg rid mid s = (effs, none)) : effs = e := by
  simp only [dirRun, hstep] at h
  exact (congrArg Prod.fst h).symm

/-- Core invariant argument: a current run that ends, started from any
resumption state whose accumulator matches the already-committed prefix,
leaves the committed trail holding exactly one path per leg, in leg order —
unless the state was already past its last commit and no further
publication occurs. -/
lemma dirRun_lastCompleted (cfg : DirCfg) (mid : ℕ) (legs : List Leg)
    (hj : cfg.journey = some legs) :
    ∀ (fuel : ℕ) (s : DirState) (effs : List Effect),
      stInv legs s → dirRun fuel cfg mid mid s = (effs, none) →
      lastCompleted effs = some (legs.map Leg.pathCoords) ∨
      (lastCompleted effs = none ∧ stDone legs s)
  | 0, s, effs, hinv, h => by simp [dirRun] at h
  | fuel + 1, s, effs, hinv, h => by
    have hlegs : cfg.legs = legs := by simp [DirCfg.legs, hj]
    cases s with
    | open1 =>
      obtain ⟨e2, hrun2, rfl⟩ :=
        dirRun_succ_some fuel cfg mid mid _ _ _ (dirStep_open1_current cfg mid) effs h
      rcases dirRun_lastCompleted cfg mid legs hj fuel DirState.open2 e2 trivial hrun2 with
        h1 | ⟨h1, h2⟩
      · left
        rw [lastCompleted_append, h1]
        rfl
      · right
        refine ⟨?_, h2⟩
        rw [lastCompleted_append, h1]
        simp [lastCompleted, completedPayload]
    | open2 =>
      rcases legs with _ | ⟨l0, rest⟩
      · have hfin : cfg.legs.length ≤ 0 := by rw [hlegs]; simp
        have hstep : dirStep cfg mid mid DirState.open2 =
            ((if cfg.hasOnComplete = true ∧ mid = mid then [Effect.callOnComplete]
              else []), none) := by
          rw [dirStep_open2_current, legEnter_finale cfg mid mid 0 [] hfin]
        have he := dirRun_succ_none fuel cfg mid mid _ _ hstep effs h
        subst he
        right
        constructor
        · split <;> simp [lastCompleted, completedPayload]
        · rfl
      · have hcons : ¬cfg.legs.length ≤ 0 := by rw [hlegs]; simp
        have hstep := dirStep_open2_current cfg mid
        rw [legEnter_current_cons cfg mid 0 [] hcons] at hstep
        obtain ⟨e2, hrun2, rfl⟩ := dirRun_succ_some fuel cfg mid mid _ _ _ hstep effs h
        rcases dirRun_lastCompleted cfg mid (l0 :: rest) hj fuel
            (DirState.flyWait 0 []) e2 ⟨rfl, by simp⟩ hrun2 with h1 | ⟨h1, h2⟩
        · left
          rw [lastCompleted_append, h1]
          rfl
        · exact absurd h2 (by simp [stDone])
    | flyWait i c =>
      obtain ⟨hc, hi⟩ := hinv
      rcases legInit_shape cfg.dist (cfg.legs.getD i emptyLeg).pathCoords
          (legSpeed cfg.settings (cfg.legs.getD i emptyLeg).mode)
          (legZoom cfg.settings (cfg.legs.getD i emptyLeg).mode)
          (legPitch (cfg.legs.getD i emptyLeg).mode) with hI | ⟨a, ls0, hI⟩
      · have hstep : dirStep cfg mid mid (DirState.flyWait i c) =
            ([], some (DirState.legDone i c)) := by
          simp only [dirStep]
          rw [if_neg (show ¬(mid ≠ mid) from fun hne => hne rfl), hI]
        obtain ⟨e2, hrun2, heq⟩ := dirRun_succ_some fuel cfg mid mid _ _ _ hstep effs h
        rcases dirRun_lastCompleted cfg mid legs hj fuel (DirState.legDone i c) e2
            ⟨hc, hi⟩ hrun2 with h1 | ⟨h1, h2⟩
        · left
          rw [heq, lastCompleted_append, h1]
          rfl
        · exact h2.elim
      · have hstep : dirStep cfg mid mid (DirState.flyWait i c) =
            ([Effect.setActiveTrail a], some (DirState.inLeg i c ls0)) := by
          simp only [dirStep]
          rw [if_neg (show ¬(mid ≠ mid) from fun hne => hne rfl), hI]
        obtain ⟨e2, hrun2, rfl⟩ := dirRun_succ_some fuel cfg mid mid _ _ _ hstep effs h
        rcases dirRun_lastCompleted cfg mid legs hj fuel (DirState.inLeg i c ls0) e2
            ⟨hc, hi⟩ hrun2 with h1 | ⟨h1, h2⟩
        · left
          rw [lastCompleted_append, h1]
          rfl
        · exact h2.elim
    | inLeg i c ls =>
      obtain ⟨hc, hi⟩ := hinv
      rcases hfr : frame cfg.dist mid mid ls with ⟨e, r⟩
      have hlc : lastCompleted e = none := by
        have := lastCompleted_frame cfg.dist mid mid ls
        rw [hfr] at this
        exact this
      cases r with
      | resolved =>
        have hstep : dirStep cfg mid mid (DirState.inLeg i c ls) =
            (e, some (DirState.legDone i c)) := by
          simp only [dirStep]
          rw [hfr]
        obtain ⟨e2, hrun2, heq⟩ := dirRun_succ_some fuel cfg mid mid _ _ _ hstep effs h
        rcases dirRun_lastCompleted cfg mid legs hj fuel (DirState.legDone i c) e2
            ⟨hc, hi⟩ hrun2 with h1 | ⟨h1, h2⟩
        · left
          rw [heq, lastCompleted_append, h1]
          rfl
        · exact h2.elim
      | next ls2 =>
        have hstep : dirStep cfg mid mid (DirState.inLeg i c ls) =
            (e, some (DirState.inLeg i c ls2)) := by
          simp only [dirStep]
          rw [hfr]
        obtain ⟨e2, hrun2, rfl⟩ := dirRun_succ_some fuel cfg mid mid _ _ _ hstep effs h
        rcases dirRun_lastCompleted cfg mid legs hj fuel (DirState.inLeg i c ls2) e2
            ⟨hc, hi⟩ hrun2 with h1 | ⟨h1, h2⟩
        · left
          rw [lastCompleted_append, h1]
          rfl
        · exact h2.elim
    | legDone i c =>
      obtain ⟨hc, hi⟩ := hinv
      have hsnoc : c ++ [(cfg.legs.getD i emptyLeg).pathCoords] =
          (legs.take (i + 1)).map Leg.pathCoords := by
        rw [hc, hlegs]
        exact take_map_snoc legs i hi
      by_cases hsl : cfg.hasShowLabel
      · have hstep := dirStep_legDone_label cfg mid i c hsl
        obtain ⟨e2, hrun2, rfl⟩ := dirRun_succ_some fuel cfg mid mid _ _ _ hstep effs h
        rcases dirRun_lastCompleted cfg mid legs hj fuel
            (DirState.arr1 i (c ++ [(cfg.legs.getD i emptyLeg).pathCoords])) e2
            ⟨hsnoc, hi⟩ hrun2 with h1 | ⟨h1, h2⟩
        · left
          rw [lastCompleted_append, h1]
          rfl
        · left
          rw [lastCompleted_append, h1]
          have h3 : i + 1 = legs.length := le_antisymm hi h2
          simp only [Option.elim]
          rw [show lastCompleted [Effect.setActiveTrail [],
              Effect.setCompletedTrail (c ++ [(cfg.legs.getD i emptyLeg).pathCoords]),
              Effect.showLabel (cfg.legs.getD i emptyLeg).toName, Effect.easeToArr] =
              some (c ++ [(cfg.legs.getD i emptyLeg).pathCoords]) from by
                simp [lastCompleted, completedPayload]]
          rw [hsnoc, h3, List.take_length]
      · have hsl2 : cfg.hasShowLabel = false := by simp [hsl]
        have hstep := dirStep_legDone_nolabel cfg mid i c hsl2
        by_cases hfin : cfg.legs.length ≤ i + 1
        · rw [legEnter_finale cfg mid mid (i + 1) _ hfin] at hstep
          have he := dirRun_succ_none fuel cfg mid mid _ _ hstep effs h
          subst he
          left
          have h3 : i + 1 = legs.length :=
            le_antisymm hi (by rw [← hlegs]; exact hfin)
          rw [show lastCompleted ([Effect.setActiveTrail [],
              Effect.setCompletedTrail (c ++ [(cfg.legs.getD i emptyLeg).pathCoords])] ++
              (if cfg.hasOnComplete = true ∧ mid = mid then [Effect.callOnComplete]
               else [])) = some (c ++ [(cfg.legs.getD i emptyLeg).pathCoords]) from by
                split <;> simp [lastCompleted, completedPayload]]
          rw [hsnoc, h3, List.take_length]
        · rw [legEnter_current_cons cfg mid (i + 1) _ hfin] at hstep
          obtain ⟨e2, hrun2, rfl⟩ := dirRun_succ_some fuel cfg mid mid _ _ _ hstep effs h
          have hi2 : i + 1 < legs.length := by
            rw [← hlegs]
            omega
          rcases dirRun_lastCompleted cfg mid legs hj fuel
              (DirState.flyWait (i + 1) (c ++ [(cfg.legs.getD i emptyLeg).pathCoords])) e2
              ⟨hsnoc, hi2⟩ hrun2 with h1 | ⟨h1, h2⟩
          · left
            rw [lastCompleted_append, h1]
            rfl
          · exact h2.elim
    | arr1 i c =>
      obtain ⟨hc, hi⟩ := hinv
      obtain ⟨e2, hrun2, rfl⟩ :=
        dirRun_succ_some fuel cfg mid mid _ _ _ (dirStep_arr1_current cfg mid i c) effs h
      rcases dirRun_lastCompleted cfg mid legs hj fuel (DirState.arr2 i c) e2
          ⟨hc, hi⟩ hrun2 with h1 | ⟨h1, h2⟩
      · left
        rw [lastCompleted_append, h1]
        rfl
      · right
        refine ⟨?_, h2⟩
        rw [lastCompleted_append, h1]
        simp [lastCompleted, completedPayload]
    | arr2 i c =>
      obtain ⟨hc, hi⟩ := hinv
      by_cases hfin : cfg.legs.length ≤ i + 1
      · have hstep : dirStep cfg mid mid (DirState.arr2 i c) =
            ((if cfg.hasOnComplete = true ∧ mid = mid then [Effect.callOnComplete]
              else []), none) := by
          rw [dirStep_arr2_current, legEnter_finale cfg mid mid (i + 1) c hfin]
        have he := dirRun_succ_none fuel cfg mid mid _ _ hstep effs h
        subst he
        right
        constructor
        · split <;> simp [lastCompleted, completedPayload]
        · rw [← hlegs]
          exact hfin
      · have hstep := dirStep_arr2_current cfg mid i c
        rw [legEnter_current_cons cfg mid (i + 1) c hfin] at hstep
        obtain ⟨e2, hrun2, rfl⟩ := dirRun_succ_some fuel cfg mid mid _ _ _ hstep effs h
        have hi2 : i + 1 < legs.length := by
          rw [← hlegs]
          omega
        rcases dirRun_lastCompleted cfg mid legs hj fuel
            (DirState.flyWait (i + 1) c) e2 ⟨hc, hi2⟩ hrun2 with h1 | ⟨h1, h2⟩
        · left
          rw [lastCompleted_append, h1]
          rfl
        · exact h2.elim

/-- The synchronous start of a run on a nonempty journey suspends into a
state satisfying the commit invariant, after publishing the cleared
completed trail. -/
lemma dirStart_cons (cfg : DirCfg) (mid : ℕ) (l0 : Leg) (rest : List Leg)
    (hj : cfg.journey = some (l0 :: rest)) :
    ∃ pre s0, dirStart cfg mid mid = (pre, some s0) ∧
      stInv (l0 :: rest) s0 ∧ lastCompleted pre = some [] ∧
      ¬stDone (l0 :: rest) s0 := by
  have hcons : ¬cfg.legs.length ≤ 0 := by simp [DirCfg.legs, hj]
  simp only [dirStart]
  rw [hj]
  dsimp only
  split
  · exact ⟨_, DirState.open1, rfl, trivial,
      by simp [lastCompleted, completedPayload], by simp [stDone]⟩
  · rw [legEnter_current_cons cfg mid 0 [] hcons]
    exact ⟨_, DirState.flyWait 0 [], rfl, ⟨rfl, by simp⟩,
      by simp [lastCompleted, completedPayload], fun hd => hd⟩

/-- A current run over a nonempty journey that ends leaves the committed
trail holding exactly the journey's leg paths, in order. -/
lemma runAll_lastCompleted (cfg : DirCfg) (mid fuel : ℕ) (legs : List Leg)
    (hj : cfg.journey = some legs) (hne : legs ≠ []) (effs : List Effect)
    (h : runAll fuel cfg mid mid = (effs, none)) :
    lastCompleted effs = some (legs.map Leg.pathCoords) := by
  rcases legs with _ | ⟨l0, rest⟩
  · exact absurd rfl hne
  obtain ⟨pre, s0, hstart, hinv, hpre, hnd⟩ := dirStart_cons cfg mid l0 rest hj
  unfold runAll at h
  rw [hstart] at h
  simp only at h
  rcases hrun : dirRun fuel cfg mid mid s0 with ⟨e2, o2⟩
  rw [hrun] at h
  have heq : pre ++ e2 = effs := congrArg Prod.fst h
  have ho : o2 = none := congrArg Prod.snd h
  subst ho
  rcases dirRun_lastCompleted cfg mid (l0 :: rest) hj fuel s0 e2 hinv hrun with
    h1 | ⟨h1, h2⟩
  · rw [← heq, lastCompleted_append, h1]
    rfl
  · exact absurd h2 hnd

/-- A stale resumption step emits no effects and either returns at once
or — for a frame step — silently resolves into the (also stale) post-await
continuation of `animateLeg`. -/
lemma dirStep_stale (cfg : DirCfg) (rid mid : ℕ) (h : rid ≠ mid)
    (s : DirState) :
    (dirStep cfg rid mid s).1 = [] ∧
    ((dirStep cfg rid mid s).2 = none ∨
      ∃ i c, (dirStep cfg rid mid s).2 = some (DirState.legDone i c)) := by
  cases s <;> simp [dirStep, h, frame]

/-- A stale `legDone` continuation returns at once. -/
lemma dirStep_stale_legDone (cfg : DirCfg) (rid mid : ℕ) (h : rid ≠ mid)
    (i : ℕ) (c : List (List Point)) :
    dirStep cfg rid mid (DirState.legDone i c) = ([], none) := by
  simp [dirStep, h]

/-- A stale run's remaining resumptions emit nothing, and die out within
two steps. -/
lemma dirRun_stale (cfg : DirCfg) (rid mid : ℕ) (h : rid ≠ mid) :
    ∀ (fuel : ℕ) (s : DirState), (dirRun fuel cfg rid mid s).1 = [] ∧
      (2 ≤ fuel → (dirRun fuel cfg rid mid s).2 = none)
  | 0, s => ⟨rfl, by omega⟩
  | fuel + 1, s => by
    rcases dirStep_stale cfg rid mid h s with ⟨he, hn | ⟨i, c, hs2⟩⟩
    · have heq : dirStep cfg rid mid s = ([], none) := by
        rcases hstep : dirStep cfg rid mid s with ⟨a, b⟩
        rw [hstep] at he hn
        simp at he hn
        simp [he, hn]
      simp [dirRun, heq]
    · have heq : dirStep cfg rid mid s = ([], some (DirState.legDone i c)) := by
        rcases hstep : dirStep cfg rid mid s with ⟨a, b⟩
        rw [hstep] at he hs2
        simp at he hs2
        simp [he, hs2]
      have hrest := dirRun_stale cfg rid mid h fuel (DirState.legDone i c)
      refine ⟨?_, ?_⟩
      · simp [dirRun, heq, hrest.1]
      · intro hf
        match fuel, hf with
        | fuel + 1, _ =>
          simp [dirRun, heq, dirStep_stale_legDone cfg rid mid h i c]

/-- Claim C1: once a run is superseded (its captured id no longer equals
the live generation), every one of its remaining continuations — per-frame
steps and post-await steps alike — emits no effect whatsoever: no marker,
trail or camera mutation, no label call, no `onComplete`/`onLegStart`, and
the whole chain dies out within two silent steps.  Moreover an exception
surfacing in a stale run only logs: the `catch` handler performs no stop
and never calls `onError`. -/
theorem C1_stale_run_silent (cfg : DirCfg) (rid mid fuel : ℕ) (s : DirState)
    (hasErr : Bool) (h : rid ≠ mid) :
    (dirRun fuel cfg rid mid s).1 = [] ∧
    (2 ≤ fuel → (dirRun fuel cfg rid mid s).2 = none) ∧
    (dirCatch rid mid hasErr).1 = [Effect.consoleError] ∧
    countOE (dirCatch rid mid hasErr).1 = 0 ∧
    countOC (dirCatch rid mid hasErr).1 = 0 := by
  refine ⟨(dirRun_stale cfg rid mid h fuel s).1,
    (dirRun_stale cfg rid mid h fuel s).2, ?_, ?_, ?_⟩ <;>
    simp [dirCatch, h, countOE, countOC]

/-- Witness for C1: a concrete superseded resumption (captured id 0, live
generation 1) emits nothing and the stale catch handler only logs. -/
theorem C1_stale_run_silent_wit :
    (1 : ℕ) ≠ 0 ∧
    ((dirRun 3 cfg9 1 0 DirState.open1).1 = [] ∧
     (2 ≤ 3 → (dirRun 3 cfg9 1 0 DirState.open1).2 = none) ∧
     (dirCatch 1 0 true).1 = [Effect.consoleError] ∧
     countOE (dirCatch 1 0 true).1 = 0 ∧
     countOC (dirCatch 1 0 true).1 = 0) :=
  ⟨by decide, C1_stale_run_silent cfg9 1 0 3 DirState.open1 true (by decide)⟩

/-- Counterexample to claim C8: with default profiles and a journey whose
first leg is a plane leg, the establishing camera zoom is
`modeZooms['car'] || 10` minus 1.5 = 8.5, while the first leg's resolved
target zoom is 3 — the establishing shot is *more* zoomed-in than the
leg target, not more zoomed-out. -/
theorem C8_establishing_zoom_cex :
    (dirStart cfg8 1 1).1[4]? =
      some (Effect.jumpTo (some (toJP (0, 0))) (establishingZoom cfg8.settings) 0) ∧
    establishingZoom cfg8.settings = 17/2 ∧
    legZoom cfg8.settings Mode.plane = 3 ∧
    ¬establishingZoom cfg8.settings < legZoom cfg8.settings Mode.plane := by
  refine ⟨by with_unfolding_all rfl, by with_unfolding_all rfl,
    by with_unfolding_all rfl, by with_unfolding_all decide⟩

/-- Claim C8 as amended: the establishing camera always uses the car
profile's zoom (falling back to 10 when falsy) minus 1.5, regardless of the
first leg's mode; with the built-in default profiles this is strictly more
zoomed-out than the first leg's target for every mode except `plane`. -/
theorem C8_establishing_zoom_amended (cfg : DirCfg) (l0 : Leg)
    (rest : List Leg) (rid mid : ℕ) (h : cfg.journey = some (l0 :: rest)) :
    (dirStart cfg rid mid).1[4]? =
      some (Effect.jumpTo (l0.pathCoords.head?.map toJP)
        (establishingZoom cfg.settings) 0) ∧
    ∀ m : Mode, m ≠ Mode.plane →
      establishingZoom noSettings < legZoom noSettings m := by
  constructor
  · simp only [dirStart, h]
    split
    · rfl
    · rcases h2 : legEnter cfg rid mid 0 [] with ⟨e2, s2⟩
      simp only [h2]
      rw [List.getElem?_append]
      simp
  · intro m hm
    cases m
    case plane => exact absurd rfl hm
    all_goals with_unfolding_all decide

/-- Witness for C8's amended statement at the concrete plane-first
configuration. -/
theorem C8_establishing_zoom_amended_wit :
    cfg8.journey = some (⟨Mode.plane, [(0, 0), (50, 50)], none, none⟩ :: []) ∧
    ((dirStart cfg8 1 1).1[4]? =
      some (Effect.jumpTo ((Leg.pathCoords ⟨Mode.plane, [(0, 0), (50, 50)], none, none⟩).head?.map toJP)
        (establishingZoom cfg8.settings) 0) ∧
     ∀ m : Mode, m ≠ Mode.plane →
       establishingZoom noSettings < legZoom noSettings m) :=
  ⟨rfl, C8_establishing_zoom_amended cfg8 _ _ 1 1 rfl⟩

/-- Witness for C10 on the concrete degenerate first segment of
`c10path`. -/
theorem C10_degenerate_segment_skip_wit :
    taxi c10ls.p1 c10ls.p2 ≤ 1/10000 ∧ c10ls.segmentProgress.ge1 = false ∧
    ((∃ effs ls', frame taxi 1 1 c10ls = (effs, FrameRes.next ls') ∧
        ls'.currentPathIdx = c10ls.currentPathIdx + 1 ∧
        ls'.activeTrail = c10ls.activeTrail ∧
        ls'.distanceCovered = c10ls.distanceCovered ∧
        ls'.segmentProgress = c10ls.segmentProgress) ∨
      frame taxi 1 1 c10ls = ([], FrameRes.resolved)) :=
  ⟨by with_unfolding_all decide, by with_unfolding_all decide,
   C10_degenerate_segment_skip taxi 1 c10ls (by with_unfolding_all decide)
     (by with_unfolding_all decide)⟩

/-- Claim C4: (1) across every frame that schedules a successor, the
committed `activeTrail` of the old state is a prefix of the new one —
path points are only appended, never removed; and (2) every current run
over a nonempty journey that ends leaves the committed trail equal to the
journey's leg paths — exactly one entry per leg, appended in leg order. -/
theorem C4_trail_monotone_and_commit :
    (∀ (dist : Point → Point → ℚ) (rid runId : ℕ) (ls : LegState)
       (effs : List Effect) (ls' : LegState),
       frame dist rid runId ls = (effs, FrameRes.next ls') →
       ls.activeTrail <+: ls'.activeTrail) ∧
    (∀ (fuel mid : ℕ) (cfg : DirCfg) (legs : List Leg) (effs : List Effect),
       cfg.journey = some legs → legs ≠ [] →
       runAll fuel cfg mid mid = (effs, none) →
       lastCompleted effs = some (legs.map Leg.pathCoords) ∧
       (legs.map Leg.pathCoords).length = legs.length) :=
  ⟨fun dist rid runId ls effs ls' h => frame_trail_prefix dist rid runId ls effs ls' h,
   fun fuel mid cfg legs effs hj hne h =>
     ⟨runAll_lastCompleted cfg mid fuel legs hj hne effs h, legs.length_map _⟩⟩

/-- Witness for C4 at a concrete frame step and a concrete completed
run. -/
theorem C4_trail_monotone_and_commit_wit :
    (∃ effs ls', frame taxi 1 1 c10ls = (effs, FrameRes.next ls') ∧
       c10ls.activeTrail <+: ls'.activeTrail) ∧
    cfg9.journey = some [⟨Mode.car, [(0, 0)], none, none⟩] ∧
    runAll 5 cfg9 1 1 = ((runAll 5 cfg9 1 1).1, none) ∧
    lastCompleted (runAll 5 cfg9 1 1).1 =
      some ([⟨Mode.car, [(0, 0)], none, none⟩].map Leg.pathCoords) := by
  have hrun : runAll 5 cfg9 1 1 = ((runAll 5 cfg9 1 1).1, none) :=
    Prod.ext rfl (by with_unfolding_all rfl)
  refine ⟨?_, rfl, hrun, ?_⟩
  · rcases hfr : frame taxi 1 1 c10ls with ⟨effs, r⟩
    cases r with
    | resolved =>
      have h2 : (frame taxi 1 1 c10ls).2 = FrameRes.resolved := by rw [hfr]
      exact absurd h2 (by with_unfolding_all decide)
    | next ls' =>
      exact ⟨effs, ls', rfl,
        C4_trail_monotone_and_commit.1 taxi 1 1 c10ls effs ls' hfr⟩
  · exact (C4_trail_monotone_and_commit.2 5 1 cfg9
      [⟨Mode.car, [(0, 0)], none, none⟩] (runAll 5 cfg9 1 1).1 rfl
      (by simp) hrun).1

/-- Counterexample to claim C9: a run over a one-leg journey that ends
(the single-point car leg of `cfg9`) fires `onComplete`, yet `onLegStart`
is invoked zero times — not once per leg as claimed: the parameter is
accepted but never called in this revision. -/
theorem C9_onLegStart_cex :
    (runAll 5 cfg9 1 1).2 = none ∧
    cfg9.legs = [⟨Mode.car, [(0, 0)], none, none⟩] ∧
    countLS (runAll 5 cfg9 1 1).1 = 0 ∧
    countOC (runAll 5 cfg9 1 1).1 = 1 := by
  refine ⟨by with_unfolding_all rfl, rfl, by with_unfolding_all rfl,
    by with_unfolding_all rfl⟩

/-- Claim C9 as amended: the Director never invokes `onLegStart` — neither
the synchronous start nor any resumption of any run ever emits it — and a
current run that ends invokes `onComplete` exactly once (when
supplied). -/
theorem C9_callbacks_amended :
    (∀ (fuel : ℕ) (cfg : DirCfg) (rid mid : ℕ) (s : DirState),
       countLS (dirRun fuel cfg rid mid s).1 = 0) ∧
    (∀ (cfg : DirCfg) (rid mid : ℕ), countLS (dirStart cfg rid mid).1 = 0) ∧
    (∀ (fuel : ℕ) (cfg : DirCfg) (mid : ℕ) (effs : List Effect),
       cfg.hasOnComplete = true → runAll fuel cfg mid mid = (effs, none) →
       countOC effs = 1) := by
  refine ⟨fun fuel cfg rid mid s => dirRun_countLS cfg rid mid fuel s,
    fun cfg rid mid => dirStart_countLS cfg rid mid,
    fun fuel cfg mid effs hc h => ?_⟩
  have h2 := runAll_countOC cfg mid fuel effs h
  rw [hc] at h2
  simpa using h2

/-- Witness for C9's amended statement on the concrete completing run. -/
theorem C9_callbacks_amended_wit :
    cfg9.hasOnComplete = true ∧
    countLS (dirStart cfg9 1 1).1 = 0 ∧
    countOC (runAll 5 cfg9 1 1).1 = 1 :=
  ⟨rfl, C9_callbacks_amended.2.1 cfg9 1 1,
   C9_callbacks_amended.2.2 5 cfg9 1 (runAll 5 cfg9 1 1).1 rfl
     (Prod.ext rfl (by with_unfolding_all rfl))⟩

end NomadRoute
